import Mathlib

/-!
Verification of the collection pipeline of the `assistente_virtual_juiz`
repository: a shallow embedding of the orchestrator
(`src/services/jurisprudencia_service.py`), the scheduler route layer
(`src/routes/scheduler.py`, `src/services/scheduler_service.py`) and the
scraper layer (`src/scrapers/*.py`), together with proofs of the spec's
claims about them.

Conventions of the embedding:
* Python dict lookups with `.get` yield `Option` values.
* The SQLAlchemy session is modelled as an explicit `Store` of committed
  rows; staging (`db.session.add`) accumulates a batch list, and the
  commit either appends the batch to the store or (on failure) discards
  it, mirroring `commit`/`rollback`.
* Exceptions that the code catches are modelled as `Except` values at the
  exact boundary where the `try`/`except` sits: a whole adapter call that
  raises is an `Except.error`, and a single record whose staging raises is
  an `Except.error` item inside the batch.
* Network fetches (`BaseScraper.get_page`) are an oracle
  `String → Option page`: `none` is the `return None` taken on any
  `requests.RequestException`.
-/

namespace AVJ

/-- One decision dict as produced by a court scraper
(`extract_decision_details` in `stj_scraper.py` and friends); every field
is read with `.get`, hence `Option`. -/
structure Decision where
  tribunal : Option String
  numero_processo : Option String
  relator : Option String
  data_julgamento : Option String
  data_publicacao : Option String
  ementa : Option String
  acordao : Option String
  tags : Option String
  url_origem : Option String
deriving Repr, DecidableEq

/-- One enunciado dict as produced by `EnunciadosScraper._parse_enunciado_text`. -/
structure EnunData where
  orgao : Option String
  tipo : Option String
  numero : Option Int
  texto : Option String
  observacoes : Option String
  url_origem : Option String
deriving Repr, DecidableEq

/-- Row of the `jurisprudencia` table (`src/models/jurisprudencia.py`);
`data_coleta` is the collection timestamp filled in at persistence time. -/
structure Jurisprudencia where
  tribunal : Option String
  numero_processo : Option String
  relator : Option String
  data_julgamento : Option String
  data_publicacao : Option String
  ementa : Option String
  acordao : Option String
  tags : Option String
  url_origem : Option String
  data_coleta : Nat
deriving Repr, DecidableEq

/-- Row of the `enunciados` table. -/
structure Enunciado where
  orgao : Option String
  tipo : Option String
  numero : Option Int
  texto : Option String
  observacoes : Option String
  url_origem : Option String
  data_coleta : Nat
deriving Repr, DecidableEq

/-- The durable store reached through `db.session`: the committed rows of
both tables. -/
structure Store where
  jurisprudencia : List Jurisprudencia
  enunciados : List Enunciado
deriving Repr, DecidableEq

/-- Embeds `JurisprudenciaService._parse_date`, which currently returns
`None` for every input. -/
def parse_date (_ : Option String) : Option String := none

/-- The filter of `Jurisprudencia.query.filter_by(tribunal=…,
numero_processo=…)`: equality on the uniqueness key, with `None`
compared as SQL `IS NULL`. -/
def jurisMatches (d : Decision) (row : Jurisprudencia) : Bool :=
  row.tribunal == d.tribunal && row.numero_processo == d.numero_processo

/-- The filter of `Enunciado.query.filter_by(orgao=…, tipo=…, numero=…)`. -/
def enunMatches (d : EnunData) (row : Enunciado) : Bool :=
  row.orgao == d.orgao && row.tipo == d.tipo && row.numero == d.numero

/-- The `Jurisprudencia(…)` constructor call inside `_save_jurisprudencia`:
dates go through `_parse_date`, `data_coleta` defaults to the current time. -/
def stageJuris (now : Nat) (d : Decision) : Jurisprudencia :=
  { tribunal := d.tribunal
    numero_processo := d.numero_processo
    relator := d.relator
    data_julgamento := parse_date d.data_julgamento
    data_publicacao := parse_date d.data_publicacao
    ementa := d.ementa
    acordao := d.acordao
    tags := d.tags
    url_origem := d.url_origem
    data_coleta := now }

/-- The `Enunciado(…)` constructor call inside `_save_enunciados`. -/
def stageEnun (now : Nat) (d : EnunData) : Enunciado :=
  { orgao := d.orgao
    tipo := d.tipo
    numero := d.numero
    texto := d.texto
    observacoes := d.observacoes
    url_origem := d.url_origem
    data_coleta := now }

/-- One batch item handed to a save step. `Except.error` models a record
for which the per-record body (key lookup or row construction) raises;
the `except`/`continue` inside the loop skips exactly that record. -/
abbrev JStage := Except String Decision

/-- Batch item for the enunciado save step. -/
abbrev EStage := Except String EnunData

/-- The staging loop of `_save_jurisprudencia`: per record, look the key up
(the session autoflushes, so the query sees committed rows and rows staged
earlier in this batch), skip on a hit, otherwise stage and count.  Returns
the staged batch and `saved_count`. -/
def saveJurisLoop (now : Nat) (committed : List Jurisprudencia) :
    List JStage → List Jurisprudencia → Nat → List Jurisprudencia × Nat
  | [], staged, count => (staged, count)
  | Except.error _ :: rest, staged, count =>
      saveJurisLoop now committed rest staged count
  | Except.ok d :: rest, staged, count =>
      if (committed ++ staged).any (jurisMatches d) then
        saveJurisLoop now committed rest staged count
      else
        saveJurisLoop now committed rest (staged ++ [stageJuris now d]) (count + 1)

/-- Embeds `JurisprudenciaService._save_jurisprudencia`: stage the batch,
then `commit` (append the batch to the store) or, when the commit raises,
`rollback` (discard the batch) and report `saved_count = 0`.  `commitOk`
is the oracle for whether the commit succeeds. -/
def save_jurisprudencia (now : Nat) (decisions : List JStage) (commitOk : Bool)
    (s : Store) : Nat × Store :=
  let r := saveJurisLoop now s.jurisprudencia decisions [] 0
  if commitOk then
    (r.2, { s with jurisprudencia := s.jurisprudencia ++ r.1 })
  else
    (0, s)

/-- The staging loop of `_save_enunciados`. -/
def saveEnunLoop (now : Nat) (committed : List Enunciado) :
    List EStage → List Enunciado → Nat → List Enunciado × Nat
  | [], staged, count => (staged, count)
  | Except.error _ :: rest, staged, count =>
      saveEnunLoop now committed rest staged count
  | Except.ok d :: rest, staged, count =>
      if (committed ++ staged).any (enunMatches d) then
        saveEnunLoop now committed rest staged count
      else
        saveEnunLoop now committed rest (staged ++ [stageEnun now d]) (count + 1)

/-- Embeds `JurisprudenciaService._save_enunciados`. -/
def save_enunciados (now : Nat) (enunciados : List EStage) (commitOk : Bool)
    (s : Store) : Nat × Store :=
  let r := saveEnunLoop now s.enunciados enunciados [] 0
  if commitOk then
    (r.2, { s with enunciados := s.enunciados ++ r.1 })
  else
    (0, s)

/-- The `results` dict built by `collect_all_recent_jurisprudence`. -/
structure CollectionResult where
  success : List String
  errors : List String
  total_collected : Nat
deriving Repr, DecidableEq

/-- One registered adapter as the orchestrator sees it: the outcome of its
collect call for the requested window (`Except.error` when the adapter
raises), plus the commit oracle for its batch.  The `enun` variant is the
`'ENUNCIADOS'` branch of the loop, which calls `get_all_enunciados` and
`_save_enunciados`; `juris` is every court branch. -/
inductive AdapterCall where
  | juris (res : Except String (List JStage)) (commitOk : Bool)
  | enun (res : Except String (List EStage)) (commitOk : Bool)
deriving Repr

/-- The error entry appended when an adapter raises. -/
def errMsg (name e : String) : String :=
  "Erro na coleta do " ++ name ++ ": " ++ e

/-- The success entry appended for a court adapter. -/
def jurisMsg (name : String) (saved : Nat) : String :=
  name ++ ": " ++ toString saved ++ " decisões coletadas"

/-- The success entry appended for the enunciados adapter. -/
def enunMsg (name : String) (saved : Nat) : String :=
  name ++ ": " ++ toString saved ++ " enunciados coletados"

/-- One iteration of the `for tribunal_name, scraper in self.scrapers.items()`
loop: run the adapter inside the failure boundary, save its batch, append a
success entry and add to the running total; on an adapter exception append
an error entry and continue. -/
def collectStep (now : Nat) (acc : CollectionResult × Store)
    (entry : String × AdapterCall) : CollectionResult × Store :=
  match entry.2 with
  | AdapterCall.juris (Except.error e) _ =>
      ({ acc.1 with errors := acc.1.errors ++ [errMsg entry.1 e] }, acc.2)
  | AdapterCall.juris (Except.ok decisions) commitOk =>
      let r := save_jurisprudencia now decisions commitOk acc.2
      ({ acc.1 with
          success := acc.1.success ++ [jurisMsg entry.1 r.1]
          total_collected := acc.1.total_collected + r.1 }, r.2)
  | AdapterCall.enun (Except.error e) _ =>
      ({ acc.1 with errors := acc.1.errors ++ [errMsg entry.1 e] }, acc.2)
  | AdapterCall.enun (Except.ok enunciados) commitOk =>
      let r := save_enunciados now enunciados commitOk acc.2
      ({ acc.1 with
          success := acc.1.success ++ [enunMsg entry.1 r.1]
          total_collected := acc.1.total_collected + r.1 }, r.2)

/-- Embeds `JurisprudenciaService.collect_all_recent_jurisprudence`: iterate
the registry of adapters in order, starting from an empty report, and return
the aggregated report together with the updated store.  The repository's
fixed registry is `[STF, STJ, TJSP, ENUNCIADOS]`; the registry is a
parameter here, with each entry already holding its collect outcome for the
requested window. -/
def collect_all_recent_jurisprudence (now : Nat)
    (registry : List (String × AdapterCall)) (s : Store) :
    CollectionResult × Store :=
  registry.foldl (collectStep now)
    ({ success := [], errors := [], total_collected := 0 }, s)

/-! Scheduler layer (`src/services/scheduler_service.py` and
`src/routes/scheduler.py`).  The APScheduler job table is a list of job
definitions owned by the scheduler; `add_job` with `replace_existing=True`
replaces any job with the same id, `remove_job` deletes by id.  The
scheduler is assumed initialised (the `if not self.scheduler` guard is the
uninitialised branch, not reachable once `init_app` has run). -/

/-- One APScheduler job definition as configured by this repository:
cron trigger hour/minute in the fixed `America/Sao_Paulo` timezone,
`max_instances=1`, `misfire_grace_time` in seconds. -/
structure Job where
  id : String
  name : String
  hour : Int
  minute : Int
  max_instances : Nat
  misfire_grace_time : Nat
deriving Repr, DecidableEq

/-- Embeds `self.scheduler.get_job(job_id)`. -/
def scheduler_get_job (jobs : List Job) (job_id : String) : Option Job :=
  jobs.find? (fun j => j.id == job_id)

/-- Embeds `self.scheduler.add_job(..., id=…, replace_existing=True)`. -/
def scheduler_add_job (jobs : List Job) (job : Job) : List Job :=
  jobs.filter (fun j => !(j.id == job.id)) ++ [job]

/-- Embeds `self.scheduler.remove_job(job_id)`. -/
def scheduler_remove_job (jobs : List Job) (job_id : String) : List Job :=
  jobs.filter (fun j => !(j.id == job_id))

/-- The structured `{'success': …, 'message': …}` dict returned by the
scheduler service and routes. -/
structure OpResult where
  success : Bool
  message : String
deriving Repr, DecidableEq

/-- Embeds `SchedulerService.remove_job`: a structured failure result for
an absent id (`get_job` returns `None`), removal plus a success message
otherwise; no exception escapes. -/
def service_remove_job (jobs : List Job) (job_id : String) :
    OpResult × List Job :=
  match scheduler_get_job jobs job_id with
  | some _ =>
      ({ success := true, message := "Job " ++ job_id ++ " removido com sucesso" },
       scheduler_remove_job jobs job_id)
  | none =>
      ({ success := false, message := "Job não encontrado" }, jobs)

/-- An HTTP-level reply of the scheduler blueprint: payload plus status. -/
structure RouteResponse where
  success : Bool
  message : String
  status : Nat
deriving Repr, DecidableEq

/-- Embeds the `DELETE /jobs/<job_id>` handler `remove_job` in
`src/routes/scheduler.py`: the built-in daily job id is rejected with a
fixed message before the scheduler service is consulted; any other id is
delegated to `SchedulerService.remove_job`. -/
def route_remove_job (jobs : List Job) (job_id : String) :
    RouteResponse × List Job :=
  if job_id == "daily_jurisprudence" then
    ({ success := false
       message := "Não é possível remover o job principal de coleta diária"
       status := 400 }, jobs)
  else
    let r := service_remove_job jobs job_id
    ({ success := r.1.success
       message := r.1.message
       status := if r.1.success then 200 else 400 }, r.2)

/-- The JSON body of a `PUT /schedule-config` request: `hour` and `minute`
read with `.get`, so either key may be absent (`minute` defaults to 0). -/
structure ScheduleConfigData where
  hour : Option Int
  minute : Option Int
deriving Repr, DecidableEq

/-- The daily job definition installed by `update_schedule_config` (and,
with hour 9 minute 0, by `add_daily_jurisprudence_job`). -/
def daily_job (hour minute : Int) : Job :=
  { id := "daily_jurisprudence"
    name := "Coleta Diária de Jurisprudência"
    hour := hour
    minute := minute
    max_instances := 1
    misfire_grace_time := 3600 }

/-- Python's `f'{n:02d}'` for the values this code passes it (n ≥ -9):
left-pad a single digit with `0`. -/
def pad2 (n : Int) : String :=
  if 0 ≤ n ∧ n < 10 then "0" ++ toString n else toString n

/-- Reply of the `PUT /schedule-config` handler; `new_schedule` is only
present on success. -/
structure ConfigResponse where
  success : Bool
  message : String
  new_schedule : Option String
  status : Nat
deriving Repr, DecidableEq

/-- Embeds the `PUT /schedule-config` handler `update_schedule_config`:
reject a missing body, a missing or out-of-range hour, then an
out-of-range minute, all before touching the job table; otherwise remove
the daily job and re-add it with the new cron trigger, reporting the new
schedule as zero-padded `HH:MM`. -/
def update_schedule_config (data : Option ScheduleConfigData)
    (jobs : List Job) : ConfigResponse × List Job :=
  match data with
  | none =>
      ({ success := false, message := "Dados de configuração são obrigatórios"
         new_schedule := none, status := 400 }, jobs)
  | some d =>
      let minute : Int := d.minute.getD 0
      match d.hour with
      | none =>
          ({ success := false, message := "Hora deve estar entre 0 e 23"
             new_schedule := none, status := 400 }, jobs)
      | some hour =>
          if ¬(0 ≤ hour ∧ hour ≤ 23) then
            ({ success := false, message := "Hora deve estar entre 0 e 23"
               new_schedule := none, status := 400 }, jobs)
          else if ¬(0 ≤ minute ∧ minute ≤ 59) then
            ({ success := false, message := "Minuto deve estar entre 0 e 59"
               new_schedule := none, status := 400 }, jobs)
          else
            let jobs1 := (service_remove_job jobs "daily_jurisprudence").2
            let jobs2 := scheduler_add_job jobs1 (daily_job hour minute)
            ({ success := true
               message := "Agendamento atualizado para " ++ pad2 hour ++ ":" ++ pad2 minute
               new_schedule := some (pad2 hour ++ ":" ++ pad2 minute)
               status := 200 }, jobs2)

/-! Text normalization (`BaseScraper.clean_text`): Python's
`' '.join(text.split())` followed by `.strip()`, modelled at the level of
character lists. -/

/-- Python's whitespace test for `str.split`/`str.strip` over the ASCII
range: space, tab, newline, carriage return, vertical tab, form feed. -/
def pySpace (c : Char) : Bool :=
  c == ' ' || c == '\t' || c == '\n' || c == '\r' ||
    c == Char.ofNat 11 || c == Char.ofNat 12

/-- Accumulator pass of Python's `str.split()` (no separator argument):
runs of whitespace separate words, and no empty words are produced.
`acc` holds the current word reversed. -/
def py_split_aux : List Char → List Char → List (List Char)
  | [], acc => if acc.isEmpty then [] else [acc.reverse]
  | c :: cs, acc =>
      if pySpace c then
        if acc.isEmpty then py_split_aux cs []
        else acc.reverse :: py_split_aux cs []
      else py_split_aux cs (c :: acc)

/-- Python's `text.split()`. -/
def py_split (s : List Char) : List (List Char) := py_split_aux s []

/-- Python's `' '.join(words)`. -/
def py_join : List (List Char) → List Char
  | [] => []
  | [w] => w
  | w :: w2 :: ws => w ++ ' ' :: py_join (w2 :: ws)

/-- Python's `text.strip()`: drop whitespace from both ends. -/
def py_strip (s : List Char) : List Char :=
  ((s.dropWhile pySpace).reverse.dropWhile pySpace).reverse

/-- The character-level body of `clean_text` on a non-falsy string. -/
def clean_text_chars (s : List Char) : List Char :=
  py_strip (py_join (py_split s))

/-- Embeds `BaseScraper.clean_text`: `None` and the empty string are falsy
and yield `""`; otherwise collapse whitespace runs to single spaces and
strip the ends. -/
def clean_text (text : Option String) : String :=
  match text with
  | none => ""
  | some s => if s.isEmpty then "" else ⟨clean_text_chars s.data⟩

/-- A well-formed word list as `str.split()` produces it: every word is
nonempty and contains no whitespace. -/
def goodWords (ws : List (List Char)) : Prop :=
  ∀ w ∈ ws, w ≠ [] ∧ ∀ c ∈ w, pySpace c = false

/-! Scraper layer.  HTML parsing is out of scope (spec §1), so a fetched
page is abstracted to what the in-scope code reads off it: for the STJ
result page, the list of `Option` candidates that `_extract_basic_info`
yields per result item; for the enunciado pages, the list of element texts
that `element.get_text()` yields.  `fetch` is the `get_page` oracle:
`none` models the `return None` taken on any transport failure. -/

/-- One candidate dict built by `STJScraper._extract_basic_info`. -/
structure Candidate where
  url : Option String
  numero_processo : Option String
  relator : Option String
  tribunal : Option String
deriving Repr, DecidableEq

/-- Base URL of `STJScraper`. -/
def stj_base_url : String := "https://www.stj.jus.br"

/-- Search URL of `STJScraper`. -/
def stj_search_url : String :=
  stj_base_url ++ "/sites/portalp/Paginas/Jurisprudencia/Pesquisa-de-Jurisprudencia.aspx"

/-- Embeds `STJScraper.search_recent_decisions`: fetch the search page and
return `[]` when `get_page` signalled failure; otherwise keep the non-`None`
basic-info extractions in page order.  (`days_back` only feeds the unused
`start_date`; the fetched page is abstracted to the per-item extraction
results.) -/
def stj_search_recent_decisions (fetch : String → Option (List (Option Candidate)))
    (_days_back : Nat) : List Candidate :=
  match fetch stj_search_url with
  | none => []
  | some items => items.filterMap id

/-- Embeds the candidate loop of `BaseScraper.get_recent_jurisprudence`:
extract details for each candidate URL and append the non-`None` results. -/
def detailLoop (extract : Option String → Option Decision) :
    List Candidate → List Decision → List Decision
  | [], acc => acc
  | c :: cs, acc =>
      match extract c.url with
      | some details => detailLoop extract cs (acc ++ [details])
      | none => detailLoop extract cs acc

/-- Embeds `BaseScraper.get_recent_jurisprudence`, the composite collect:
`search_recent_decisions` then `extract_decision_details` per candidate,
with absent results filtered out.  The abstract methods of the base class
are parameters. -/
def get_recent_jurisprudence (search : Nat → List Candidate)
    (extract : Option String → Option Decision) (days_back : Nat) :
    List Decision :=
  detailLoop extract (search days_back) []

/-- The FONAJE pages of `EnunciadosScraper`, keyed by `tipo`. -/
def fonaje_urls : List (String × String) :=
  [("civeis", "https://www.cnj.jus.br/programas-e-acoes/juizados-especiais/enunciados-fonaje/enunciados-civeis/"),
   ("criminais", "https://www.cnj.jus.br/programas-e-acoes/juizados-especiais/enunciados-fonaje/enunciados-criminais/"),
   ("fazenda_publica", "https://www.cnj.jus.br/programas-e-acoes/juizados-especiais/enunciados-fonaje/enunciados-fazenda-publica/")]

/-- The CNJ page of `EnunciadosScraper`. -/
def cnj_url : String := "https://www.cnj.jus.br/enunciados/"

/-- Embeds `EnunciadosScraper._scrape_fonaje_enunciados` (and, with the CNJ
arguments, `_scrape_cnj_enunciados`): fetch the page and return `[]` on
failure; otherwise clean each element text, keep those `_is_enunciado`
accepts, and parse them.  The two regex helpers `_is_enunciado` and
`_parse_enunciado_text` are parameters (`isEnun`, `parseEnun`): their
pattern matching is the out-of-scope extraction logic, `parseEnun` taking
the cleaned text, `orgao`, `tipo` and the page URL. -/
def scrape_enunciado_page (fetch : String → Option (List String))
    (isEnun : String → Bool)
    (parseEnun : String → String → String → String → Option EnunData)
    (url orgao tipo : String) : List EnunData :=
  match fetch url with
  | none => []
  | some texts =>
      texts.filterMap (fun raw =>
        let t := clean_text (some raw)
        if isEnun t then parseEnun t orgao tipo url else none)

/-- Embeds `EnunciadosScraper.get_all_enunciados`: the three FONAJE pages
in order, then the CNJ page. -/
def get_all_enunciados (fetch : String → Option (List String))
    (isEnun : String → Bool)
    (parseEnun : String → String → String → String → Option EnunData) :
    List EnunData :=
  (fonaje_urls.flatMap (fun p =>
    scrape_enunciado_page fetch isEnun parseEnun p.2 "FONAJE" p.1)) ++
    scrape_enunciado_page fetch isEnun parseEnun cnj_url "CNJ" "GERAL"

/-- Embeds `EnunciadosScraper.search_recent_decisions`: the `days_back`
argument is ignored and the full corpus is collected. -/
def enunciados_search_recent_decisions (fetch : String → Option (List String))
    (isEnun : String → Bool)
    (parseEnun : String → String → String → String → Option EnunData)
    (_days_back : Nat) : List EnunData :=
  get_all_enunciados fetch isEnun parseEnun

/-- Embeds `EnunciadosScraper.extract_decision_details`: always `None`. -/
def enunciados_extract_decision_details (_decision_url : Option String) :
    Option Decision :=
  none

/-! Auxiliary predicates used to state the orchestrator claims. -/

/-- The empty report `collect_all_recent_jurisprudence` starts from. -/
def emptyResult : CollectionResult :=
  { success := [], errors := [], total_collected := 0 }

/-- The exception message of an adapter call that raises, `none` when the
call returns normally. -/
def adapterError : AdapterCall → Option String
  | AdapterCall.juris (Except.error e) _ => some e
  | AdapterCall.enun (Except.error e) _ => some e
  | AdapterCall.juris (Except.ok _) _ => none
  | AdapterCall.enun (Except.ok _) _ => none

/-- The commit oracle of an adapter's batch. -/
def commitFlag : AdapterCall → Bool
  | AdapterCall.juris _ ok => ok
  | AdapterCall.enun _ ok => ok

/-- Whether a decision's uniqueness key `(tribunal, numero_processo)`
already occurs among the given rows. -/
def decisionKnown (rows : List Jurisprudencia) (d : Decision) : Bool :=
  rows.any (jurisMatches d)

/-- Whether an enunciado's uniqueness key `(orgao, tipo, numero)` already
occurs among the given rows. -/
def enunKnown (rows : List Enunciado) (d : EnunData) : Bool :=
  rows.any (enunMatches d)

/-- Every record an adapter entry delivers already has its key in the
store (exception items and raising adapters carry no records). -/
def entryKeysKnown (s : Store) : String × AdapterCall → Prop
  | (_, AdapterCall.juris (Except.ok ds) _) =>
      ∀ i ∈ ds, ∀ d, i = Except.ok d → decisionKnown s.jurisprudencia d = true
  | (_, AdapterCall.enun (Except.ok es) _) =>
      ∀ i ∈ es, ∀ d, i = Except.ok d → enunKnown s.enunciados d = true
  | (_, AdapterCall.juris (Except.error _) _) => True
  | (_, AdapterCall.enun (Except.error _) _) => True

/-! Lemmas about the save step. -/

theorem saveJurisLoop_drop_error (now : Nat) (committed : List Jurisprudencia)
    (e : String) (xs ys : List JStage) :
    ∀ (staged : List Jurisprudencia) (count : Nat),
      saveJurisLoop now committed (xs ++ Except.error e :: ys) staged count =
        saveJurisLoop now committed (xs ++ ys) staged count := by
  induction xs with
  | nil => intro staged count; rfl
  | cons x xs ih =>
      intro staged count
      cases x with
      | error e' => simpa only [List.cons_append, saveJurisLoop] using ih _ _
      | ok d =>
          simp only [List.cons_append, saveJurisLoop]
          split <;> exact ih _ _

theorem saveEnunLoop_drop_error (now : Nat) (committed : List Enunciado)
    (e : String) (xs ys : List EStage) :
    ∀ (staged : List Enunciado) (count : Nat),
      saveEnunLoop now committed (xs ++ Except.error e :: ys) staged count =
        saveEnunLoop now committed (xs ++ ys) staged count := by
  induction xs with
  | nil => intro staged count; rfl
  | cons x xs ih =>
      intro staged count
      cases x with
      | error e' => simpa only [List.cons_append, saveEnunLoop] using ih _ _
      | ok d =>
          simp only [List.cons_append, saveEnunLoop]
          split <;> exact ih _ _

/-- C9: per-record isolation inside one batch.  A batch item whose staging
raises is skipped by the `except`/`continue`, and the save step behaves on
the whole batch exactly as if that item were absent: every other record is
still staged and counted, for both record kinds. -/
theorem save_step_skips_failed_record (now : Nat) (e : String) (commitOk : Bool)
    (s : Store) (xs ys : List JStage) (us vs : List EStage) :
    save_jurisprudencia now (xs ++ Except.error e :: ys) commitOk s =
        save_jurisprudencia now (xs ++ ys) commitOk s ∧
      save_enunciados now (us ++ Except.error e :: vs) commitOk s =
        save_enunciados now (us ++ vs) commitOk s := by
  constructor
  · unfold save_jurisprudencia
    rw [saveJurisLoop_drop_error]
  · unfold save_enunciados
    rw [saveEnunLoop_drop_error]

theorem save_jurisprudencia_commit_fail (now : Nat) (ds : List JStage)
    (s : Store) : save_jurisprudencia now ds false s = (0, s) := rfl

theorem save_enunciados_commit_fail (now : Nat) (es : List EStage)
    (s : Store) : save_enunciados now es false s = (0, s) := rfl

/-- C3: batch atomicity of persistence.  Appending to any prefix run an
adapter whose commit fails leaves the store exactly as the prefix run left
it (records committed for earlier adapters survive, no record of the
failed batch does), adds nothing to the running total, and reports that
adapter's saved count as zero; for batches of either record kind. -/
theorem commit_failure_rolls_back_batch_only (now : Nat)
    (pre : List (String × AdapterCall)) (nm : String) (ds : List JStage)
    (es : List EStage) (s : Store) :
    (collect_all_recent_jurisprudence now
          (pre ++ [(nm, AdapterCall.juris (Except.ok ds) false)]) s).2 =
        (collect_all_recent_jurisprudence now pre s).2 ∧
      (collect_all_recent_jurisprudence now
          (pre ++ [(nm, AdapterCall.juris (Except.ok ds) false)]) s).1.total_collected =
        (collect_all_recent_jurisprudence now pre s).1.total_collected ∧
      (collect_all_recent_jurisprudence now
          (pre ++ [(nm, AdapterCall.juris (Except.ok ds) false)]) s).1.success =
        (collect_all_recent_jurisprudence now pre s).1.success ++ [jurisMsg nm 0] ∧
      (collect_all_recent_jurisprudence now
          (pre ++ [(nm, AdapterCall.enun (Except.ok es) false)]) s).2 =
        (collect_all_recent_jurisprudence now pre s).2 ∧
      (collect_all_recent_jurisprudence now
          (pre ++ [(nm, AdapterCall.enun (Except.ok es) false)]) s).1.total_collected =
        (collect_all_recent_jurisprudence now pre s).1.total_collected ∧
      (collect_all_recent_jurisprudence now
          (pre ++ [(nm, AdapterCall.enun (Except.ok es) false)]) s).1.success =
        (collect_all_recent_jurisprudence now pre s).1.success ++ [enunMsg nm 0] := by
  unfold collect_all_recent_jurisprudence
  rw [List.foldl_append, List.foldl_append]
  simp [collectStep, save_jurisprudencia_commit_fail, save_enunciados_commit_fail]

/-! Lemmas about the scraper layer. -/

theorem detailLoop_eq_filterMap (extract : Option String → Option Decision)
    (cs : List Candidate) :
    ∀ acc : List Decision,
      detailLoop extract cs acc = acc ++ cs.filterMap (fun c => extract c.url) := by
  induction cs with
  | nil => intro acc; simp [detailLoop]
  | cons c cs ih =>
      intro acc
      cases h : extract c.url with
      | none => simp [detailLoop, h, ih]
      | some d => simp [detailLoop, h, ih]

/-- C7: the composite collect of the adapter base class equals
`search_recent_decisions` followed by `extract_decision_details` on each
candidate's URL, with absent results filtered out, in candidate order. -/
theorem get_recent_jurisprudence_is_search_then_extract
    (search : Nat → List Candidate)
    (extract : Option String → Option Decision) (days_back : Nat) :
    get_recent_jurisprudence search extract days_back =
      (search days_back).filterMap (fun c => extract c.url) := by
  unfold get_recent_jurisprudence
  rw [detailLoop_eq_filterMap]
  simp

/-- C8: the rules-variant adapter ignores `days_back` — any two window
arguments yield the same full corpus — and its detail extraction returns
absent for every input. -/
theorem enunciados_ignores_days_back
    (fetch : String → Option (List String)) (isEnun : String → Bool)
    (parseEnun : String → String → String → String → Option EnunData)
    (d1 d2 : Nat) :
    enunciados_search_recent_decisions fetch isEnun parseEnun d1 =
        enunciados_search_recent_decisions fetch isEnun parseEnun d2 ∧
      ∀ u, enunciados_extract_decision_details u = none :=
  ⟨rfl, fun _ => rfl⟩

/-- C6: an unreachable source yields an empty sequence, not a failure.
When the fetch oracle reports failure for the pages an adapter reads,
`search_recent_decisions` of the STJ adapter and the full-corpus search of
the rules adapter both return `[]`. -/
theorem unreachable_source_yields_empty
    (fetchC : String → Option (List (Option Candidate)))
    (fetchS : String → Option (List String)) (isEnun : String → Bool)
    (parseEnun : String → String → String → String → Option EnunData)
    (days_back : Nat) (hC : fetchC stj_search_url = none)
    (hS : ∀ u, fetchS u = none) :
    stj_search_recent_decisions fetchC days_back = [] ∧
      get_all_enunciados fetchS isEnun parseEnun = [] := by
  constructor
  · unfold stj_search_recent_decisions
    rw [hC]
  · unfold get_all_enunciados scrape_enunciado_page
    simp [hS, fonaje_urls]

/-- Witness for the C6 theorem: a fetch oracle that fails on every URL. -/
theorem unreachable_source_yields_empty_witness :
    stj_search_recent_decisions (fun _ => none) 7 = [] ∧
      get_all_enunciados (fun _ => none) (fun _ => false)
        (fun _ _ _ _ => none) = [] :=
  unreachable_source_yields_empty (fun _ => none) (fun _ => none)
    (fun _ => false) (fun _ _ _ _ => none) 7 rfl (fun _ => rfl)

/-! Scheduler claims. -/

/-- C5: the built-in daily job is protected at the call-site.  A remove
request for `"daily_jurisprudence"` is answered with the fixed rejection
message and leaves the job table — hence the job listing — untouched,
while removing any other absent job id yields the structured
`Job não encontrado` failure result, again without changing the table. -/
theorem remove_job_protects_daily (jobs : List Job) (job_id : String) :
    route_remove_job jobs "daily_jurisprudence" =
        ({ success := false
           message := "Não é possível remover o job principal de coleta diária"
           status := 400 }, jobs) ∧
      (job_id ≠ "daily_jurisprudence" → scheduler_get_job jobs job_id = none →
        route_remove_job jobs job_id =
          ({ success := false, message := "Job não encontrado", status := 400 },
           jobs)) := by
  constructor
  · unfold route_remove_job
    simp
  · intro hne habs
    unfold route_remove_job service_remove_job
    rw [habs]
    simp [hne]

/-- Witness for the C5 theorem: a table holding only the daily job, and the
absent id `other`. -/
theorem remove_job_protects_daily_witness :
    route_remove_job [daily_job 9 0] "daily_jurisprudence" =
        ({ success := false
           message := "Não é possível remover o job principal de coleta diária"
           status := 400 }, [daily_job 9 0]) ∧
      route_remove_job [daily_job 9 0] "other" =
        ({ success := false, message := "Job não encontrado", status := 400 },
         [daily_job 9 0]) :=
  ⟨(remove_job_protects_daily [daily_job 9 0] "other").1,
   (remove_job_protects_daily [daily_job 9 0] "other").2 (by decide) (by decide)⟩

/-- C4: reconfiguring the daily job validates its inputs.  A missing or
out-of-range hour, or an out-of-range minute, is rejected with the
corresponding validation message and leaves the job table (and so the
daily job definition) unchanged; in-range inputs succeed and report the
new schedule as zero-padded `HH:MM`. -/
theorem update_schedule_config_validates (jobs : List Job)
    (d : ScheduleConfigData) :
    (d.hour = none →
        update_schedule_config (some d) jobs =
          ({ success := false, message := "Hora deve estar entre 0 e 23"
             new_schedule := none, status := 400 }, jobs)) ∧
      (∀ hh, d.hour = some hh → ¬(0 ≤ hh ∧ hh ≤ 23) →
        update_schedule_config (some d) jobs =
          ({ success := false, message := "Hora deve estar entre 0 e 23"
             new_schedule := none, status := 400 }, jobs)) ∧
      (∀ hh, d.hour = some hh → 0 ≤ hh ∧ hh ≤ 23 →
        ¬(0 ≤ d.minute.getD 0 ∧ d.minute.getD 0 ≤ 59) →
        update_schedule_config (some d) jobs =
          ({ success := false, message := "Minuto deve estar entre 0 e 59"
             new_schedule := none, status := 400 }, jobs)) ∧
      (∀ hh, d.hour = some hh → 0 ≤ hh ∧ hh ≤ 23 →
        0 ≤ d.minute.getD 0 ∧ d.minute.getD 0 ≤ 59 →
        (update_schedule_config (some d) jobs).1.success = true ∧
          (update_schedule_config (some d) jobs).1.new_schedule =
            some (pad2 hh ++ ":" ++ pad2 (d.minute.getD 0))) := by
  refine ⟨?_, ?_, ?_, ?_⟩
  · intro hnone
    simp only [update_schedule_config]
    rw [hnone]
  · intro hh hsome hout
    simp only [update_schedule_config]
    rw [hsome]
    simp [hout]
  · intro hh hsome hin hout
    simp only [update_schedule_config]
    rw [hsome]
    simp [hin, hout]
  · intro hh hsome hin hmin
    simp only [update_schedule_config]
    rw [hsome]
    simp [hin, hmin]

/-- Witness for the C4 theorem: hour 25 is rejected without touching a
table holding the daily job (Scenario C of the spec), and hour 9 minute 30
succeeds reporting `09:30`. -/
theorem update_schedule_config_validates_witness :
    update_schedule_config (some { hour := some 25, minute := none })
        [daily_job 9 0] =
        ({ success := false, message := "Hora deve estar entre 0 e 23"
           new_schedule := none, status := 400 }, [daily_job 9 0]) ∧
      (update_schedule_config (some { hour := some 9, minute := some 30 })
          [daily_job 9 0]).1.success = true ∧
      (update_schedule_config (some { hour := some 9, minute := some 30 })
          [daily_job 9 0]).1.new_schedule = some "09:30" := by
  refine ⟨?_, ?_⟩
  · exact (update_schedule_config_validates [daily_job 9 0]
      { hour := some 25, minute := none }).2.1 25 rfl (by decide)
  · have h := (update_schedule_config_validates [daily_job 9 0]
      { hour := some 9, minute := some 30 }).2.2.2 9 rfl (by decide) (by decide)
    exact ⟨h.1, by rw [h.2]; rfl⟩

/-! Lemmas about the orchestrator loop. -/

theorem collectStep_err (now : Nat) (p : CollectionResult × Store)
    (x : String × AdapterCall) (e : String) (h : adapterError x.2 = some e) :
    collectStep now p x =
      ({ p.1 with errors := p.1.errors ++ [errMsg x.1 e] }, p.2) := by
  obtain ⟨nm, c⟩ := x
  cases c with
  | juris r ok =>
      cases r with
      | error e' =>
          simp only [adapterError, Option.some.injEq] at h
          subst h
          rfl
      | ok l => simp [adapterError] at h
  | enun r ok =>
      cases r with
      | error e' =>
          simp only [adapterError, Option.some.injEq] at h
          subst h
          rfl
      | ok l => simp [adapterError] at h

theorem collectStep_ok (now : Nat) (p : CollectionResult × Store)
    (x : String × AdapterCall) (h : adapterError x.2 = none) :
    (collectStep now p x).1.errors = p.1.errors ∧
      (collectStep now p x).1.success.length = p.1.success.length + 1 := by
  obtain ⟨nm, c⟩ := x
  cases c with
  | juris r ok =>
      cases r with
      | error e => simp [adapterError] at h
      | ok l => simp [collectStep]
  | enun r ok =>
      cases r with
      | error e => simp [adapterError] at h
      | ok l => simp [collectStep]

theorem collectStep_decompose (now : Nat) (x : String × AdapterCall)
    (p : CollectionResult × Store) :
    (collectStep now p x).2 = (collectStep now (emptyResult, p.2) x).2 ∧
      (collectStep now p x).1.success =
        p.1.success ++ (collectStep now (emptyResult, p.2) x).1.success ∧
      (collectStep now p x).1.errors =
        p.1.errors ++ (collectStep now (emptyResult, p.2) x).1.errors ∧
      (collectStep now p x).1.total_collected =
        p.1.total_collected +
          (collectStep now (emptyResult, p.2) x).1.total_collected := by
  obtain ⟨nm, c⟩ := x
  cases c with
  | juris r ok => cases r <;> simp [collectStep, emptyResult]
  | enun r ok => cases r <;> simp [collectStep, emptyResult]

theorem collect_foldl_decompose (now : Nat) (l : List (String × AdapterCall)) :
    ∀ p : CollectionResult × Store,
      (List.foldl (collectStep now) p l).2 =
          (List.foldl (collectStep now) (emptyResult, p.2) l).2 ∧
        (List.foldl (collectStep now) p l).1.success =
          p.1.success ++
            (List.foldl (collectStep now) (emptyResult, p.2) l).1.success ∧
        (List.foldl (collectStep now) p l).1.errors =
          p.1.errors ++
            (List.foldl (collectStep now) (emptyResult, p.2) l).1.errors ∧
        (List.foldl (collectStep now) p l).1.total_collected =
          p.1.total_collected +
            (List.foldl (collectStep now) (emptyResult, p.2) l).1.total_collected := by
  induction l with
  | nil => intro p; simp [emptyResult]
  | cons x l ih =>
      intro p
      simp only [List.foldl_cons]
      obtain ⟨hsd, hsu, her, hto⟩ := collectStep_decompose now x p
      obtain ⟨i1s, i1su, i1e, i1t⟩ := ih (collectStep now p x)
      obtain ⟨i2s, i2su, i2e, i2t⟩ := ih (collectStep now (emptyResult, p.2) x)
      refine ⟨?_, ?_, ?_, ?_⟩
      · rw [i1s, i2s, hsd]
      · rw [i1su, i2su, hsu, hsd, List.append_assoc]
      · rw [i1e, i2e, her, hsd, List.append_assoc]
      · rw [i1t, i2t, hto, hsd, Nat.add_assoc]

theorem collect_foldl_all_ok (now : Nat) (l : List (String × AdapterCall)) :
    ∀ p : CollectionResult × Store, (∀ x ∈ l, adapterError x.2 = none) →
      (List.foldl (collectStep now) p l).1.errors = p.1.errors ∧
        (List.foldl (collectStep now) p l).1.success.length =
          p.1.success.length + l.length := by
  induction l with
  | nil => intro p _; simp
  | cons x l ih =>
      intro p h
      simp only [List.foldl_cons, List.length_cons]
      obtain ⟨he, hs⟩ := collectStep_ok now p x (h x (List.mem_cons_self x l))
      obtain ⟨ihe, ihs⟩ :=
        ih (collectStep now p x) (fun y hy => h y (List.mem_cons_of_mem x hy))
      exact ⟨by rw [ihe, he], by rw [ihs, hs]; omega⟩

/-- C2: per-source failure isolation.  In a registry where exactly one
adapter raises (everything before and after it returns normally), the run
still produces the same success entries, total, and final store as the run
without the failing adapter — one success entry per remaining adapter —
plus exactly one error entry tagged with the failing source's name. -/
theorem single_failing_adapter_isolated (now : Nat)
    (pre post : List (String × AdapterCall)) (nm e : String)
    (bad : AdapterCall) (s : Store) (hbad : adapterError bad = some e)
    (hpre : ∀ x ∈ pre, adapterError x.2 = none)
    (hpost : ∀ x ∈ post, adapterError x.2 = none) :
    (collect_all_recent_jurisprudence now (pre ++ (nm, bad) :: post) s).1.success =
        (collect_all_recent_jurisprudence now (pre ++ post) s).1.success ∧
      (collect_all_recent_jurisprudence now
          (pre ++ (nm, bad) :: post) s).1.success.length =
        pre.length + post.length ∧
      (collect_all_recent_jurisprudence now (pre ++ (nm, bad) :: post) s).1.errors =
        [errMsg nm e] ∧
      (collect_all_recent_jurisprudence now
          (pre ++ (nm, bad) :: post) s).1.total_collected =
        (collect_all_recent_jurisprudence now (pre ++ post) s).1.total_collected ∧
      (collect_all_recent_jurisprudence now (pre ++ (nm, bad) :: post) s).2 =
        (collect_all_recent_jurisprudence now (pre ++ post) s).2 := by
  unfold collect_all_recent_jurisprudence
  rw [List.foldl_append, List.foldl_append, List.foldl_cons]
  obtain ⟨hpe, hpl⟩ :=
    collect_foldl_all_ok now pre
      ({ success := [], errors := [], total_collected := 0 }, s) hpre
  simp only at hpe hpl
  generalize hA : List.foldl (collectStep now)
      ({ success := [], errors := [], total_collected := 0 }, s) pre = A at hpe hpl ⊢
  obtain ⟨A1, A2⟩ := A
  obtain ⟨As, Ae, At⟩ := A1
  simp only at hpe hpl
  subst hpe
  rw [collectStep_err now ({ success := As, errors := [], total_collected := At }, A2)
    (nm, bad) e hbad]
  simp only [List.nil_append]
  obtain ⟨d1s, d1su, d1e, d1t⟩ :=
    collect_foldl_decompose now post
      ({ success := As, errors := [errMsg nm e], total_collected := At }, A2)
  obtain ⟨d2s, d2su, d2e, d2t⟩ :=
    collect_foldl_decompose now post
      ({ success := As, errors := [], total_collected := At }, A2)
  obtain ⟨dre, drl⟩ := collect_foldl_all_ok now post (emptyResult, A2) hpost
  simp only [emptyResult] at d1s d1su d1e d1t d2s d2su d2e d2t dre drl
  refine ⟨?_, ?_, ?_, ?_, ?_⟩
  · rw [d1su, d2su]
  · rw [d1su]
    simp only [List.length_append]
    rw [drl]
    simp only [List.length_nil, Nat.zero_add] at hpl ⊢
    omega
  · rw [d1e, dre]
    simp
  · rw [d1t, d2t]
  · rw [d1s, d2s]

/-- Witness for the C2 theorem: a three-adapter registry whose middle
adapter raises on every call. -/
theorem single_failing_adapter_isolated_witness :
    (collect_all_recent_jurisprudence 0
        ([("STF", AdapterCall.juris (Except.ok []) true)] ++
          ("STJ", AdapterCall.juris (Except.error "boom") true) ::
            [("ENUNCIADOS", AdapterCall.enun (Except.ok []) true)])
        { jurisprudencia := [], enunciados := [] }).1.errors =
      [errMsg "STJ" "boom"] ∧
    (collect_all_recent_jurisprudence 0
        ([("STF", AdapterCall.juris (Except.ok []) true)] ++
          ("STJ", AdapterCall.juris (Except.error "boom") true) ::
            [("ENUNCIADOS", AdapterCall.enun (Except.ok []) true)])
        { jurisprudencia := [], enunciados := [] }).1.success.length = 1 + 1 := by
  have h :=
    single_failing_adapter_isolated 0
      [("STF", AdapterCall.juris (Except.ok []) true)]
      [("ENUNCIADOS", AdapterCall.enun (Except.ok []) true)]
      "STJ" "boom" (AdapterCall.juris (Except.error "boom") true)
      { jurisprudencia := [], enunciados := [] }
      rfl (by intro x hx; simp at hx; rw [hx]; rfl)
      (by intro x hx; simp at hx; rw [hx]; rfl)
  exact ⟨h.2.2.1, h.2.1⟩

/-! Lemmas about deduplication: staged rows match their source record, the
staging loop only appends, and every record of a processed batch ends up
with its key present. -/

theorem jurisMatches_stage (now : Nat) (d : Decision) :
    jurisMatches d (stageJuris now d) = true := by
  simp [jurisMatches, stageJuris]

theorem enunMatches_stage (now : Nat) (d : EnunData) :
    enunMatches d (stageEnun now d) = true := by
  simp [enunMatches, stageEnun]

theorem decisionKnown_append_left (rows ext : List Jurisprudencia) (d : Decision)
    (h : decisionKnown rows d = true) : decisionKnown (rows ++ ext) d = true := by
  simp only [decisionKnown, List.any_append, Bool.or_eq_true]
  exact Or.inl h

theorem enunKnown_append_left (rows ext : List Enunciado) (d : EnunData)
    (h : enunKnown rows d = true) : enunKnown (rows ++ ext) d = true := by
  simp only [enunKnown, List.any_append, Bool.or_eq_true]
  exact Or.inl h

theorem saveJurisLoop_extends (now : Nat) (committed : List Jurisprudencia)
    (ds : List JStage) :
    ∀ staged count, ∃ ext,
      (saveJurisLoop now committed ds staged count).1 = staged ++ ext := by
  induction ds with
  | nil => intro staged count; exact ⟨[], by simp [saveJurisLoop]⟩
  | cons i ds ih =>
      intro staged count
      cases i with
      | error e => simpa only [saveJurisLoop] using ih staged count
      | ok d =>
          simp only [saveJurisLoop]
          split
          · exact ih staged count
          · obtain ⟨ext, hext⟩ := ih (staged ++ [stageJuris now d]) (count + 1)
            exact ⟨stageJuris now d :: ext, by rw [hext, List.append_assoc]; rfl⟩

theorem saveEnunLoop_extends (now : Nat) (committed : List Enunciado)
    (ds : List EStage) :
    ∀ staged count, ∃ ext,
      (saveEnunLoop now committed ds staged count).1 = staged ++ ext := by
  induction ds with
  | nil => intro staged count; exact ⟨[], by simp [saveEnunLoop]⟩
  | cons i ds ih =>
      intro staged count
      cases i with
      | error e => simpa only [saveEnunLoop] using ih staged count
      | ok d =>
          simp only [saveEnunLoop]
          split
          · exact ih staged count
          · obtain ⟨ext, hext⟩ := ih (staged ++ [stageEnun now d]) (count + 1)
            exact ⟨stageEnun now d :: ext, by rw [hext, List.append_assoc]; rfl⟩

theorem saveJurisLoop_covers (now : Nat) (committed : List Jurisprudencia)
    (ds : List JStage) :
    ∀ staged count i, i ∈ ds → ∀ d, i = Except.ok d →
      (committed ++ (saveJurisLoop now committed ds staged count).1).any
        (jurisMatches d) = true := by
  induction ds with
  | nil => intro staged count i hi; simp at hi
  | cons j ds ih =>
      intro staged count i hi d hd
      subst hd
      rcases List.mem_cons.mp hi with h | h
      · subst h
        simp only [saveJurisLoop]
        split
        · rename_i hdup
          obtain ⟨ext, hext⟩ := saveJurisLoop_extends now committed ds staged count
          rw [hext]
          simp only [List.any_append, Bool.or_eq_true] at hdup ⊢
          tauto
        · obtain ⟨ext, hext⟩ :=
            saveJurisLoop_extends now committed ds (staged ++ [stageJuris now d])
              (count + 1)
          rw [hext]
          simp [List.any_append, jurisMatches_stage]
      · cases j with
        | error e =>
            simp only [saveJurisLoop]
            exact ih staged count _ h _ rfl
        | ok d' =>
            simp only [saveJurisLoop]
            split <;> exact ih _ _ _ h _ rfl

theorem saveEnunLoop_covers (now : Nat) (committed : List Enunciado)
    (ds : List EStage) :
    ∀ staged count i, i ∈ ds → ∀ d, i = Except.ok d →
      (committed ++ (saveEnunLoop now committed ds staged count).1).any
        (enunMatches d) = true := by
  induction ds with
  | nil => intro staged count i hi; simp at hi
  | cons j ds ih =>
      intro staged count i hi d hd
      subst hd
      rcases List.mem_cons.mp hi with h | h
      · subst h
        simp only [saveEnunLoop]
        split
        · rename_i hdup
          obtain ⟨ext, hext⟩ := saveEnunLoop_extends now committed ds staged count
          rw [hext]
          simp only [List.any_append, Bool.or_eq_true] at hdup ⊢
          tauto
        · obtain ⟨ext, hext⟩ :=
            saveEnunLoop_extends now committed ds (staged ++ [stageEnun now d])
              (count + 1)
          rw [hext]
          simp [List.any_append, enunMatches_stage]
      · cases j with
        | error e =>
            simp only [saveEnunLoop]
            exact ih staged count _ h _ rfl
        | ok d' =>
            simp only [saveEnunLoop]
            split <;> exact ih _ _ _ h _ rfl

theorem saveJurisLoop_all_known (now : Nat) (committed : List Jurisprudencia)
    (ds : List JStage)
    (h : ∀ i ∈ ds, ∀ d, i = Except.ok d → decisionKnown committed d = true) :
    ∀ staged count, saveJurisLoop now committed ds staged count = (staged, count) := by
  induction ds with
  | nil => intro staged count; rfl
  | cons i ds ih =>
      intro staged count
      cases i with
      | error e =>
          exact ih (fun j hj => h j (List.mem_cons_of_mem _ hj)) staged count
      | ok d =>
          have hd := h _ (List.mem_cons_self _ _) d rfl
          have hc2 : (committed ++ staged).any (jurisMatches d) = true := by
            simp only [decisionKnown] at hd
            simp [List.any_append, hd]
          simp only [saveJurisLoop, hc2, if_true]
          exact ih (fun j hj => h j (List.mem_cons_of_mem _ hj)) staged count

theorem saveEnunLoop_all_known (now : Nat) (committed : List Enunciado)
    (ds : List EStage)
    (h : ∀ i ∈ ds, ∀ d, i = Except.ok d → enunKnown committed d = true) :
    ∀ staged count, saveEnunLoop now committed ds staged count = (staged, count) := by
  induction ds with
  | nil => intro staged count; rfl
  | cons i ds ih =>
      intro staged count
      cases i with
      | error e =>
          exact ih (fun j hj => h j (List.mem_cons_of_mem _ hj)) staged count
      | ok d =>
          have hd := h _ (List.mem_cons_self _ _) d rfl
          have hc2 : (committed ++ staged).any (enunMatches d) = true := by
            simp only [enunKnown] at hd
            simp [List.any_append, hd]
          simp only [saveEnunLoop, hc2, if_true]
          exact ih (fun j hj => h j (List.mem_cons_of_mem _ hj)) staged count

theorem save_jurisprudencia_all_known (now : Nat) (ds : List JStage) (c : Bool)
    (s : Store)
    (h : ∀ i ∈ ds, ∀ d, i = Except.ok d → decisionKnown s.jurisprudencia d = true) :
    save_jurisprudencia now ds c s = (0, s) := by
  unfold save_jurisprudencia
  rw [saveJurisLoop_all_known now s.jurisprudencia ds h [] 0]
  cases c <;> simp

theorem save_enunciados_all_known (now : Nat) (ds : List EStage) (c : Bool)
    (s : Store)
    (h : ∀ i ∈ ds, ∀ d, i = Except.ok d → enunKnown s.enunciados d = true) :
    save_enunciados now ds c s = (0, s) := by
  unfold save_enunciados
  rw [saveEnunLoop_all_known now s.enunciados ds h [] 0]
  cases c <;> simp

theorem save_jurisprudencia_establishes (now : Nat) (ds : List JStage) (s : Store) :
    ∀ i ∈ ds, ∀ d, i = Except.ok d →
      decisionKnown (save_jurisprudencia now ds true s).2.jurisprudencia d = true := by
  intro i hi d hd
  have h := saveJurisLoop_covers now s.jurisprudencia ds [] 0 i hi d hd
  simpa [decisionKnown, save_jurisprudencia] using h

theorem save_enunciados_establishes (now : Nat) (ds : List EStage) (s : Store) :
    ∀ i ∈ ds, ∀ d, i = Except.ok d →
      enunKnown (save_enunciados now ds true s).2.enunciados d = true := by
  intro i hi d hd
  have h := saveEnunLoop_covers now s.enunciados ds [] 0 i hi d hd
  simpa [enunKnown, save_enunciados] using h

theorem collectStep_store_extends (now : Nat) (p : CollectionResult × Store)
    (x : String × AdapterCall) :
    ∃ e1 e2, (collectStep now p x).2.jurisprudencia = p.2.jurisprudencia ++ e1 ∧
      (collectStep now p x).2.enunciados = p.2.enunciados ++ e2 := by
  obtain ⟨nm, c⟩ := x
  cases c with
  | juris r co =>
      cases r with
      | error e => exact ⟨[], [], by simp [collectStep], by simp [collectStep]⟩
      | ok ds =>
          cases co with
          | false =>
              exact ⟨[], [], by simp [collectStep, save_jurisprudencia],
                by simp [collectStep, save_jurisprudencia]⟩
          | true =>
              exact ⟨(saveJurisLoop now p.2.jurisprudencia ds [] 0).1, [],
                by simp [collectStep, save_jurisprudencia],
                by simp [collectStep, save_jurisprudencia]⟩
  | enun r co =>
      cases r with
      | error e => exact ⟨[], [], by simp [collectStep], by simp [collectStep]⟩
      | ok ds =>
          cases co with
          | false =>
              exact ⟨[], [], by simp [collectStep, save_enunciados],
                by simp [collectStep, save_enunciados]⟩
          | true =>
              exact ⟨[], (saveEnunLoop now p.2.enunciados ds [] 0).1,
                by simp [collectStep, save_enunciados],
                by simp [collectStep, save_enunciados]⟩

theorem collect_foldl_store_extends (now : Nat)
    (l : List (String × AdapterCall)) :
    ∀ p : CollectionResult × Store, ∃ e1 e2,
      (List.foldl (collectStep now) p l).2.jurisprudencia =
          p.2.jurisprudencia ++ e1 ∧
        (List.foldl (collectStep now) p l).2.enunciados =
          p.2.enunciados ++ e2 := by
  induction l with
  | nil => intro p; exact ⟨[], [], by simp, by simp⟩
  | cons x l ih =>
      intro p
      obtain ⟨e1, e2, h1, h2⟩ := collectStep_store_extends now p x
      obtain ⟨f1, f2, g1, g2⟩ := ih (collectStep now p x)
      refine ⟨e1 ++ f1, e2 ++ f2, ?_, ?_⟩
      · rw [List.foldl_cons, g1, h1, List.append_assoc]
      · rw [List.foldl_cons, g2, h2, List.append_assoc]

theorem entryKeysKnown_mono (s s' : Store) (x : String × AdapterCall)
    (h1 : ∃ e1, s'.jurisprudencia = s.jurisprudencia ++ e1)
    (h2 : ∃ e2, s'.enunciados = s.enunciados ++ e2)
    (h : entryKeysKnown s x) : entryKeysKnown s' x := by
  obtain ⟨nm, c⟩ := x
  obtain ⟨e1, he1⟩ := h1
  obtain ⟨e2, he2⟩ := h2
  cases c with
  | juris r co =>
      cases r with
      | error e => trivial
      | ok ds =>
          intro i hi d hd
          rw [he1]
          exact decisionKnown_append_left _ _ _ (h i hi d hd)
  | enun r co =>
      cases r with
      | error e => trivial
      | ok ds =>
          intro i hi d hd
          rw [he2]
          exact enunKnown_append_left _ _ _ (h i hi d hd)

theorem collectStep_establishes (now : Nat) (p : CollectionResult × Store)
    (x : String × AdapterCall) (hc : commitFlag x.2 = true) :
    entryKeysKnown (collectStep now p x).2 x := by
  obtain ⟨nm, c⟩ := x
  cases c with
  | juris r co =>
      cases r with
      | error e => trivial
      | ok ds =>
          simp only [commitFlag] at hc
          subst hc
          intro i hi d hd
          exact save_jurisprudencia_establishes now ds p.2 i hi d hd
  | enun r co =>
      cases r with
      | error e => trivial
      | ok ds =>
          simp only [commitFlag] at hc
          subst hc
          intro i hi d hd
          exact save_enunciados_establishes now ds p.2 i hi d hd

theorem collect_foldl_establishes (now : Nat)
    (l : List (String × AdapterCall)) :
    ∀ p : CollectionResult × Store, (∀ x ∈ l, commitFlag x.2 = true) →
      ∀ x ∈ l, entryKeysKnown (List.foldl (collectStep now) p l).2 x := by
  induction l with
  | nil => intro p _ x hx; simp at hx
  | cons y l ih =>
      intro p hc x hx
      rw [List.foldl_cons]
      rcases List.mem_cons.mp hx with h | h
      · subst h
        have h1 := collectStep_establishes now p x (hc x (List.mem_cons_self _ _))
        obtain ⟨e1, e2, g1, g2⟩ :=
          collect_foldl_store_extends now l (collectStep now p x)
        exact entryKeysKnown_mono _ _ x ⟨e1, g1⟩ ⟨e2, g2⟩ h1
      · exact ih (collectStep now p y)
          (fun z hz => hc z (List.mem_cons_of_mem _ hz)) x h

theorem collectStep_noop (now : Nat) (p : CollectionResult × Store)
    (x : String × AdapterCall) (h : entryKeysKnown p.2 x) :
    (collectStep now p x).2 = p.2 ∧
      (collectStep now p x).1.total_collected = p.1.total_collected := by
  obtain ⟨nm, c⟩ := x
  cases c with
  | juris r co =>
      cases r with
      | error e => exact ⟨rfl, rfl⟩
      | ok ds =>
          have hs := save_jurisprudencia_all_known now ds co p.2 h
          constructor
          · show (save_jurisprudencia now ds co p.2).2 = p.2
            rw [hs]
          · show p.1.total_collected + (save_jurisprudencia now ds co p.2).1 =
              p.1.total_collected
            rw [hs]
            rfl
  | enun r co =>
      cases r with
      | error e => exact ⟨rfl, rfl⟩
      | ok ds =>
          have hs := save_enunciados_all_known now ds co p.2 h
          constructor
          · show (save_enunciados now ds co p.2).2 = p.2
            rw [hs]
          · show p.1.total_collected + (save_enunciados now ds co p.2).1 =
              p.1.total_collected
            rw [hs]
            rfl

theorem collect_foldl_noop (now : Nat) (l : List (String × AdapterCall)) :
    ∀ p : CollectionResult × Store, (∀ x ∈ l, entryKeysKnown p.2 x) →
      (List.foldl (collectStep now) p l).2 = p.2 ∧
        (List.foldl (collectStep now) p l).1.total_collected =
          p.1.total_collected := by
  induction l with
  | nil => intro p _; exact ⟨rfl, rfl⟩
  | cons y l ih =>
      intro p h
      rw [List.foldl_cons]
      obtain ⟨h2, ht⟩ := collectStep_noop now p y (h y (List.mem_cons_self _ _))
      obtain ⟨ih2, iht⟩ := ih (collectStep now p y)
        (fun z hz => by rw [h2]; exact h z (List.mem_cons_of_mem _ hz))
      exact ⟨by rw [ih2, h2], by rw [iht, ht]⟩

theorem saveJurisLoop_skip_known (now : Nat) (committed : List Jurisprudencia)
    (d : Decision) (hd : decisionKnown committed d = true) (xs ys : List JStage) :
    ∀ staged count,
      saveJurisLoop now committed (xs ++ Except.ok d :: ys) staged count =
        saveJurisLoop now committed (xs ++ ys) staged count := by
  induction xs with
  | nil =>
      intro staged count
      have hc2 : (committed ++ staged).any (jurisMatches d) = true := by
        simp only [decisionKnown] at hd
        simp [List.any_append, hd]
      simp only [List.nil_append, saveJurisLoop, hc2, if_true]
  | cons x xs ih =>
      intro staged count
      cases x with
      | error e => simpa only [List.cons_append, saveJurisLoop] using ih _ _
      | ok d' =>
          simp only [List.cons_append, saveJurisLoop]
          split <;> exact ih _ _

/-- C1: first-write-wins deduplication and idempotence.  A record whose
uniqueness key `(tribunal, numero_processo)` already exists in the store
is skipped by the save step — the batch behaves exactly as if that record
were absent, so nothing is counted and no existing row is touched — and a
second `collect_all_recent_jurisprudence` run over the same registry (all
batches committed on the first run, no new external data) reports
`total_collected = 0` and leaves the store, row for row, unchanged. -/
theorem first_write_wins_idempotent (now now2 : Nat)
    (registry : List (String × AdapterCall)) (s : Store)
    (hc : ∀ x ∈ registry, commitFlag x.2 = true) :
    (∀ (d : Decision) (xs ys : List JStage) (c : Bool),
        decisionKnown s.jurisprudencia d = true →
        save_jurisprudencia now (xs ++ Except.ok d :: ys) c s =
          save_jurisprudencia now (xs ++ ys) c s) ∧
      (collect_all_recent_jurisprudence now2 registry
          (collect_all_recent_jurisprudence now registry s).2).1.total_collected =
        0 ∧
      (collect_all_recent_jurisprudence now2 registry
          (collect_all_recent_jurisprudence now registry s).2).2 =
        (collect_all_recent_jurisprudence now registry s).2 := by
  have hk := collect_foldl_establishes now registry
    ({ success := [], errors := [], total_collected := 0 }, s) hc
  obtain ⟨h2, ht⟩ := collect_foldl_noop now2 registry
    ({ success := [], errors := [], total_collected := 0 },
      (collect_all_recent_jurisprudence now registry s).2)
    (fun x hx => hk x hx)
  refine ⟨?_, ht, h2⟩
  intro d xs ys c hd
  unfold save_jurisprudencia
  rw [saveJurisLoop_skip_known now s.jurisprudencia d hd xs ys [] 0]

/-- Witness for the C1 theorem: a one-adapter registry delivering one
decision into an empty store; the second run collects nothing and leaves
the store unchanged. -/
theorem first_write_wins_idempotent_witness :
    (collect_all_recent_jurisprudence 1
        [("STJ", AdapterCall.juris (Except.ok [Except.ok
          { tribunal := some "STJ"
            numero_processo := some "0001234-56.2024.8.26.0000"
            relator := none, data_julgamento := none, data_publicacao := none
            ementa := some "e", acordao := none, tags := none
            url_origem := none }]) true)]
        (collect_all_recent_jurisprudence 0
          [("STJ", AdapterCall.juris (Except.ok [Except.ok
            { tribunal := some "STJ"
              numero_processo := some "0001234-56.2024.8.26.0000"
              relator := none, data_julgamento := none, data_publicacao := none
              ementa := some "e", acordao := none, tags := none
              url_origem := none }]) true)]
          { jurisprudencia := [], enunciados := [] }).2).1.total_collected = 0 :=
  (first_write_wins_idempotent 0 1
    [("STJ", AdapterCall.juris (Except.ok [Except.ok
      { tribunal := some "STJ"
        numero_processo := some "0001234-56.2024.8.26.0000"
        relator := none, data_julgamento := none, data_publicacao := none
        ementa := some "e", acordao := none, tags := none
        url_origem := none }]) true)]
    { jurisprudencia := [], enunciados := [] }
    (by intro x hx; simp at hx; rw [hx]; rfl)).2.1

/-! Lemmas about text normalization: `str.split()` produces nonempty,
space-free words; joining such words with single spaces yields a string
with clean boundaries and no adjacent whitespace; splitting it again
recovers the words; and stripping it is the identity. -/

theorem py_split_aux_good (s : List Char) :
    ∀ acc, (∀ c ∈ acc, pySpace c = false) → goodWords (py_split_aux s acc) := by
  induction s with
  | nil =>
      intro acc hacc
      simp only [py_split_aux]
      split
      · intro w hw; simp at hw
      · rename_i hne
        intro w hw
        simp only [List.mem_singleton] at hw
        subst hw
        refine ⟨?_, fun c hc => hacc c (List.mem_reverse.mp hc)⟩
        simp only [ne_eq, List.reverse_eq_nil_iff]
        intro h
        subst h
        simp at hne
  | cons c cs ih =>
      intro acc hacc
      simp only [py_split_aux]
      split
      · split
        · exact ih [] (by intro x hx; simp at hx)
        · rename_i hne
          intro w hw
          rcases List.mem_cons.mp hw with h | h
          · subst h
            refine ⟨?_, fun x hx => hacc x (List.mem_reverse.mp hx)⟩
            simp only [ne_eq, List.reverse_eq_nil_iff]
            intro h
            subst h
            simp at hne
          · exact ih [] (by intro x hx; simp at hx) w h
      · rename_i hsp
        apply ih
        intro x hx
        rcases List.mem_cons.mp hx with h | h
        · subst h
          simpa using hsp
        · exact hacc x h

theorem py_split_good (s : List Char) : goodWords (py_split s) :=
  py_split_aux_good s [] (by intro c hc; simp at hc)

theorem py_join_ne_nil (ws : List (List Char)) (hws : ws ≠ [])
    (hgood : goodWords ws) : py_join ws ≠ [] := by
  match ws with
  | [] => exact absurd rfl hws
  | [w] => simpa [py_join] using (hgood w (by simp)).1
  | w :: w2 :: ws => simp [py_join]

theorem py_join_head (ws : List (List Char)) (hgood : goodWords ws) :
    ∀ c, (py_join ws).head? = some c → pySpace c = false := by
  match ws with
  | [] => intro c hc; simp [py_join] at hc
  | [w] =>
      intro c hc
      have hw := hgood w (by simp)
      simp only [py_join] at hc
      exact hw.2 c (List.mem_of_mem_head? hc)
  | w :: w2 :: ws =>
      intro c hc
      have hw := hgood w (by simp)
      simp only [py_join] at hc
      rw [List.head?_append_of_ne_nil _ hw.1] at hc
      exact hw.2 c (List.mem_of_mem_head? hc)

theorem py_join_last (ws : List (List Char)) (hgood : goodWords ws) :
    ∀ c, (py_join ws).getLast? = some c → pySpace c = false := by
  induction ws with
  | nil => intro c hc; simp [py_join] at hc
  | cons w ws ih =>
      intro c hc
      have hw := hgood w (by simp)
      cases ws with
      | nil =>
          simp only [py_join] at hc
          exact hw.2 c (List.mem_of_mem_getLast? hc)
      | cons w2 ws' =>
          have hgood' : goodWords (w2 :: ws') :=
            fun x hx => hgood x (List.mem_cons_of_mem _ hx)
          have hJ : py_join (w2 :: ws') ≠ [] := py_join_ne_nil _ (by simp) hgood'
          obtain ⟨j, J', hJeq⟩ := List.exists_cons_of_ne_nil hJ
          simp only [py_join] at hc
          rw [List.getLast?_append_cons, hJeq, List.getLast?_cons_cons] at hc
          exact ih hgood' c (by rw [hJeq]; exact hc)

theorem chain_of_no_space (l : List Char)
    (h : ∀ c ∈ l, pySpace c = false) :
    List.Chain' (fun a b => ¬(pySpace a = true ∧ pySpace b = true)) l := by
  induction l with
  | nil => exact List.chain'_nil
  | cons a l ih =>
      rw [List.chain'_cons']
      refine ⟨?_, ih (fun c hc => h c (List.mem_cons_of_mem _ hc))⟩
      intro y _
      simp [h a (List.mem_cons_self _ _)]

theorem py_join_chain (ws : List (List Char)) (hgood : goodWords ws) :
    List.Chain' (fun a b => ¬(pySpace a = true ∧ pySpace b = true))
      (py_join ws) := by
  induction ws with
  | nil => exact List.chain'_nil
  | cons w ws ih =>
      have hw := hgood w (by simp)
      cases ws with
      | nil => simpa only [py_join] using chain_of_no_space w hw.2
      | cons w2 ws' =>
          have hgood' : goodWords (w2 :: ws') :=
            fun x hx => hgood x (List.mem_cons_of_mem _ hx)
          simp only [py_join]
          apply List.Chain'.append
          · exact chain_of_no_space w hw.2
          · rw [List.chain'_cons']
            refine ⟨?_, ih hgood'⟩
            intro y hy
            simp [py_join_head (w2 :: ws') hgood' y hy]
          · intro x hx y _
            simp [hw.2 x (List.mem_of_mem_getLast? hx)]

theorem py_strip_id (l : List Char)
    (hhead : ∀ c, l.head? = some c → pySpace c = false)
    (hlast : ∀ c, l.getLast? = some c → pySpace c = false) :
    py_strip l = l := by
  unfold py_strip
  have h1 : l.dropWhile pySpace = l := by
    cases l with
    | nil => rfl
    | cons a l' =>
        rw [List.dropWhile_cons, hhead a rfl]
        simp
  rw [h1]
  have h2 : l.reverse.dropWhile pySpace = l.reverse := by
    cases hrev : l.reverse with
    | nil => rfl
    | cons a m =>
        rw [List.dropWhile_cons]
        have : l.getLast? = some a := by
          rw [← List.head?_reverse, hrev]
          rfl
        rw [hlast a this]
        simp
  rw [h2, List.reverse_reverse]

theorem py_split_aux_no_space_chunk (w : List Char)
    (hw : ∀ c ∈ w, pySpace c = false) :
    ∀ rest acc, py_split_aux (w ++ rest) acc =
      py_split_aux rest (w.reverse ++ acc) := by
  induction w with
  | nil => intro rest acc; simp
  | cons c w' ih =>
      intro rest acc
      have hc : pySpace c = false := hw c (List.mem_cons_self _ _)
      have h1 : py_split_aux ((c :: w') ++ rest) acc =
          py_split_aux (w' ++ rest) (c :: acc) := by
        simp [py_split_aux, hc]
      rw [h1, ih (fun x hx => hw x (List.mem_cons_of_mem _ hx)) rest (c :: acc)]
      simp

theorem py_split_join (ws : List (List Char)) (hgood : goodWords ws) :
    py_split (py_join ws) = ws := by
  induction ws with
  | nil => rfl
  | cons w ws ih =>
      have hw := hgood w (by simp)
      cases ws with
      | nil =>
          show py_split_aux (py_join [w]) [] = [w]
          simp only [py_join]
          rw [show w = w ++ [] by simp, py_split_aux_no_space_chunk w hw.2 [] []]
          simp only [py_split_aux, List.append_nil]
          rw [if_neg]
          · simp
          · simp [List.isEmpty_iff, hw.1]
      | cons w2 ws' =>
          have hgood' : goodWords (w2 :: ws') :=
            fun x hx => hgood x (List.mem_cons_of_mem _ hx)
          show py_split_aux (py_join (w :: w2 :: ws')) [] = w :: w2 :: ws'
          simp only [py_join]
          rw [py_split_aux_no_space_chunk w hw.2 _ []]
          have hsp : pySpace ' ' = true := by decide
          simp only [py_split_aux, hsp, List.append_nil, if_true]
          rw [if_neg]
          · rw [List.reverse_reverse]
            exact congrArg (w :: ·) (ih hgood')
          · simp [List.isEmpty_iff, hw.1]

theorem clean_text_chars_eq_join (s : List Char) :
    clean_text_chars s = py_join (py_split s) := by
  unfold clean_text_chars
  exact py_strip_id _ (py_join_head _ (py_split_good s))
    (py_join_last _ (py_split_good s))

theorem clean_text_chars_idem (s : List Char) :
    clean_text_chars (clean_text_chars s) = clean_text_chars s := by
  rw [clean_text_chars_eq_join s]
  unfold clean_text_chars
  rw [py_split_join _ (py_split_good s)]
  exact py_strip_id _ (py_join_head _ (py_split_good s))
    (py_join_last _ (py_split_good s))

/-- C10: text normalization is idempotent and total.  `clean_text` maps an
absent or empty input to `""`; for every string the output has no leading
whitespace (its first character, when present, is not whitespace), no
trailing whitespace, and no two consecutive whitespace characters; and
cleaning an already cleaned value changes nothing:
`clean_text (some (clean_text t)) = clean_text t`. -/
theorem clean_text_normalizes (t : Option String) (s : String) :
    clean_text none = "" ∧ clean_text (some "") = "" ∧
      (∀ c, (clean_text (some s)).data.head? = some c → pySpace c = false) ∧
      (∀ c, (clean_text (some s)).data.getLast? = some c → pySpace c = false) ∧
      List.Chain' (fun a b => ¬(pySpace a = true ∧ pySpace b = true))
        (clean_text (some s)).data ∧
      clean_text (some (clean_text t)) = clean_text t := by
  refine ⟨rfl, rfl, ?_, ?_, ?_, ?_⟩
  · intro c hc
    by_cases hs : s.isEmpty = true
    · simp [clean_text, hs] at hc
    · simp only [clean_text, if_neg hs] at hc
      have hc' : (clean_text_chars s.data).head? = some c := hc
      rw [clean_text_chars_eq_join] at hc'
      exact py_join_head _ (py_split_good s.data) c hc'
  · intro c hc
    by_cases hs : s.isEmpty = true
    · simp [clean_text, hs] at hc
    · simp only [clean_text, if_neg hs] at hc
      have hc' : (clean_text_chars s.data).getLast? = some c := hc
      rw [clean_text_chars_eq_join] at hc'
      exact py_join_last _ (py_split_good s.data) c hc'
  · by_cases hs : s.isEmpty = true
    · simp only [clean_text, if_pos hs]
      exact List.chain'_nil
    · simp only [clean_text, if_neg hs]
      show List.Chain' _ (clean_text_chars s.data)
      rw [clean_text_chars_eq_join]
      exact py_join_chain _ (py_split_good s.data)
  · cases t with
    | none => rfl
    | some u =>
        by_cases hu : u.isEmpty = true
        · simp only [clean_text, if_pos hu]
          rfl
        · simp only [clean_text, if_neg hu]
          by_cases h2 : (String.mk (clean_text_chars u.data)).isEmpty = true
          · rw [if_pos h2]
            exact ((String.isEmpty_iff _).mp h2).symm
          · rw [if_neg h2]
            show String.mk (clean_text_chars (clean_text_chars u.data)) = _
            rw [clean_text_chars_idem]

/-- Witness for the C10 theorem, applied at concrete inputs: the cleaned
form of a padded string starts with the non-space character it should, and
re-cleaning an already cleaned string changes nothing. -/
theorem clean_text_normalizes_witness :
    pySpace 'a' = false ∧
      clean_text (some (clean_text (some " x  y "))) =
        clean_text (some " x  y ") :=
  ⟨(clean_text_normalizes (some " x  y ") "  a  b ").2.2.1 'a' (by decide),
   (clean_text_normalizes (some " x  y ") "  a  b ").2.2.2.2.2⟩

end AVJ
